import Mathlib

/-!
# AI-stotle: verification of the retrieval-augmented answer pipeline

A shallow embedding of the AI-stotle system.  The repository's visible
source is the frontend widget and API client (`frontend/src/...`); the
backend core components (EmbeddingEngine, KnowledgeStore, Retriever,
PromptAssembler, AnswerGenerator, CostTracker) are specified but their
implementation is not part of the visible source, so they are modelled
from the specification text.  The widget's `sendMessage` handler is
embedded directly from `frontend/src/components` code.
-/

namespace AIstotle

/-! ## Definitions -/

/-- Modelled from the spec: EmbeddingEngine is missing from the visible
source.  A deterministic text hash standing in for the embedding model:
a pure function of the text (fixed model version). -/
def hashText (s : String) : Nat :=
  s.data.foldl (fun h c => h * 31 + c.toNat) 7

/-- Modelled from the spec: the embedding vector of a text — a
fixed-dimension numeric vector, a pure deterministic function of the
text.  The rational point `((1 - q ^ 2) / (1 + q ^ 2), 2 q / (1 + q ^ 2))`
lies on the unit circle, so every embedding is a unit vector and the
normalized inner product (cosine similarity) is the plain dot product. -/
def embedVec (t : String) : List ℚ :=
  let q : ℚ := (hashText t : ℚ)
  [(1 - q ^ 2) / (1 + q ^ 2), 2 * q / (1 + q ^ 2)]

/-- Modelled from the spec: `embed(text) -> vector`, failing with an
`EmbeddingError` on empty input (no silent empty-vector fallback). -/
def embed (t : String) : Except String (List ℚ) :=
  if t = "" then .error "EmbeddingError: empty input" else .ok (embedVec t)

/-- Inner product of two embedding vectors (the similarity score of the
store: cosine similarity, equivalently normalized inner product). -/
def dot (a b : List ℚ) : ℚ :=
  (List.zipWith (fun x y => x * y) a b).sum

/-- Modelled from the spec: tail-recursive accumulator loop of
`embedBatch`, a throughput-style batching of per-item `embed` calls,
stopping at the first failure. -/
def embedBatchGo : List String → List (List ℚ) → Except String (List (List ℚ))
  | [], acc => .ok acc.reverse
  | t :: ts, acc =>
    match embed t with
    | .error e => .error e
    | .ok v => embedBatchGo ts (v :: acc)

/-- Modelled from the spec: `embedBatch(texts) -> vectors`, a throughput
optimization over per-item calls. -/
def embedBatch (ts : List String) : Except String (List (List ℚ)) :=
  embedBatchGo ts []

/-- The per-item reference semantics of `embedBatch` as worded by the
spec: calling `embed` on each text individually, in order, keeping the
results in the same order and stopping at the first failure. -/
def embedBatchSpec : List String → Except String (List (List ℚ))
  | [] => .ok []
  | t :: ts =>
    match embed t with
    | .error e => .error e
    | .ok v =>
      match embedBatchSpec ts with
      | .error e => .error e
      | .ok vs => .ok (v :: vs)

/-- Metadata mapping carried by a document (category, age range,
wow_factor), from the spec's data model. -/
structure Metadata where
  category : String
  age_min : Nat
  age_max : Nat
  wow_factor : Nat
deriving DecidableEq

/-- A document: identity, raw text and metadata. -/
structure Document where
  id : String
  text : String
  meta : Metadata
deriving DecidableEq

/-- A document as stored in a collection, paired with its embedding. -/
structure StoredDoc where
  doc : Document
  emb : List ℚ
deriving DecidableEq

/-- A named partition of documents; the list order is insertion order. -/
abbrev Collection := List StoredDoc

/-- Modelled from the spec: `upsert(collection, document, embedding)` —
replace by id when present, append otherwise. -/
def upsert (c : Collection) (d : Document) (e : List ℚ) : Collection :=
  if c.any (fun sd => sd.doc.id == d.id) then
    c.map (fun sd => if sd.doc.id == d.id then ⟨d, e⟩ else sd)
  else
    c ++ [⟨d, e⟩]

/-- Document reference + similarity score + originating collection,
plus the insertion position used for the deterministic tie-break. -/
structure RetrievalResult where
  doc : Document
  score : ℚ
  idx : Nat
  coll : String
deriving DecidableEq

/-- Ranking order of search results: higher cosine score first; on equal
scores, earlier-inserted documents first (stable, deterministic). -/
def rankLE (r s : RetrievalResult) : Prop :=
  s.score < r.score ∨ (r.score = s.score ∧ r.idx ≤ s.idx)

instance : DecidableRel rankLE := fun r s => by
  unfold rankLE; infer_instance

instance : IsTotal RetrievalResult rankLE where
  total r s := by
    rcases lt_trichotomy r.score s.score with h | h | h
    · exact Or.inr (Or.inl h)
    · rcases Nat.le_total r.idx s.idx with hi | hi
      · exact Or.inl (Or.inr ⟨h, hi⟩)
      · exact Or.inr (Or.inr ⟨h.symm, hi⟩)
    · exact Or.inl (Or.inl h)

instance : IsTrans RetrievalResult rankLE where
  trans r s t hrs hst := by
    rcases hrs with h1 | ⟨h1, h1i⟩ <;> rcases hst with h2 | ⟨h2, h2i⟩
    · exact Or.inl (h2.trans h1)
    · exact Or.inl (h2 ▸ h1)
    · exact Or.inl (h1 ▸ h2)
    · exact Or.inr ⟨h1.trans h2, h1i.trans h2i⟩

/-- Modelled from the spec: `search(collection, queryVector, k, filter)`
— apply the metadata filter to every candidate, score the survivors by
cosine similarity (inner product of unit vectors), rank by score
descending with the insertion-order tie-break, and only then truncate
to `k`. -/
def search (cname : String) (c : Collection) (q : List ℚ) (k : Nat)
    (fil : Metadata → Bool) : List RetrievalResult :=
  let cands := c.enum.filter (fun p => fil p.2.doc.meta)
  let scored := cands.map
    (fun p => RetrievalResult.mk p.2.doc (dot q p.2.emb) p.1 cname)
  (scored.insertionSort rankLE).take k

/-- The age-eligibility metadata filter:
`age_min ≤ requested_age ≤ age_max`. -/
def ageOk (age : Nat) (m : Metadata) : Bool :=
  m.age_min ≤ age && age ≤ m.age_max

/-- Modelled from the spec: the system instruction variant selected by
age bucket (6–8, 9–11, 12–14), controlling vocabulary and tone. -/
def ageInstruction (age : Nat) : String :=
  if age ≤ 8 then
    "You are AI-stotle, a kind science tutor. Use very simple words and short sentences for a young child."
  else if age ≤ 11 then
    "You are AI-stotle, a kind science tutor. Explain clearly with everyday examples."
  else
    "You are AI-stotle, a wise science tutor. You may use precise scientific vocabulary."

/-- Modelled from the spec: the explicit marker that no grounding
context is available, so the generator answers from general knowledge. -/
def noGroundingNote : String :=
  " No grounding available: answer from general knowledge."

/-- The assembled bounded-size context: a system instruction and the
selected excerpts, in ranked order. -/
structure Context where
  instruction : String
  excerpts : List String
  question : String
deriving DecidableEq

/-- Modelled from the spec: greedy excerpt selection in ranked order
under a character budget; an excerpt that would exceed the remaining
budget is dropped entirely, never partially truncated. -/
def pickExcerpts : Nat → List String → List String
  | _, [] => []
  | budget, e :: es =>
    if e.length ≤ budget then e :: pickExcerpts (budget - e.length) es
    else pickExcerpts budget es

/-- Modelled from the spec: `assemble(question, results, age)` builds
the context from the ranked results under the configured budget and
signals "no grounding available" when there are no results. -/
def assemble (question : String) (results : List RetrievalResult)
    (age : Nat) (budget : Nat) : Context :=
  { instruction :=
      ageInstruction age ++ (if results.isEmpty then noGroundingNote else ""),
    excerpts := pickExcerpts budget (results.map (fun r => r.doc.text)),
    question := question }

/-- Modelled from the spec: a generation provider — a name, an entry in
the provider-specific pricing table, and the provider call, a function
of the prompt and the attempt number returning either the answer text
with its token count or a provider error. -/
structure Provider where
  name : String
  pricePerToken : ℚ
  call : String → Nat → Except String (String × Nat)

/-- Answer text, tokens consumed, computed monetary cost, provider
used, success flag. -/
structure GenerationResult where
  answer : String
  tokens_used : Nat
  cost : ℚ
  provider : String
  success : Bool
deriving DecidableEq

/-- Modelled from the spec: the fixed, age-appropriate apology message
returned when every provider fails; it never contains provider error
text. -/
def apology (age : Nat) : String :=
  if age ≤ 8 then
    "Apologies, young scholar! My thinking cap slipped. Please ask me again soon."
  else
    "Apologies, young scholar. I seem to have lost my train of thought. Please try again."

/-- The prompt handed to a provider: instruction, excerpts, question. -/
def buildPrompt (question : String) (ctx : Context) : String :=
  ctx.instruction ++ String.intercalate " " ctx.excerpts ++ question

/-- Modelled from the spec: one attempt against a provider plus a
single retry against the same provider. -/
def tryProvider (p : Provider) (prompt : String) : Option (String × Nat) :=
  match p.call prompt 0 with
  | .ok r => some r
  | .error _ =>
    match p.call prompt 1 with
    | .ok r => some r
    | .error _ => none

/-- Modelled from the spec: `generate(question, context, age)` walks the
provider preference list; the first provider that succeeds (initially or
on its one retry) supplies the answer, with
`cost = tokens_used × price-per-token`; if all providers fail the
result is `success = false` with the fixed apology. -/
def generate (providers : List Provider) (question : String) (ctx : Context)
    (age : Nat) : GenerationResult :=
  match providers with
  | [] => ⟨apology age, 0, 0, "none", false⟩
  | p :: ps =>
    match tryProvider p (buildPrompt question ctx) with
    | some (ans, toks) => ⟨ans, toks, (toks : ℚ) * p.pricePerToken, p.name, true⟩
    | none => generate ps question ctx age

/-- Modelled from the spec: case/whitespace-insensitive normalization of
document text used for deduplication. -/
def normText (s : String) : String :=
  ⟨(s.data.filter (fun ch => !ch.isWhitespace)).map Char.toLower⟩

/-- Modelled from the spec: deduplicate by normalized document text,
keeping the first (hence, on a score-ranked list, the highest-scoring)
instance of each text. -/
def dedupByText : List RetrievalResult → List RetrievalResult
  | [] => []
  | r :: rs =>
    r :: dedupByText
      (rs.filter (fun x => normText x.doc.text != normText r.doc.text))
termination_by l => l.length
decreasing_by
  simp only [List.length_cons]
  exact Nat.lt_succ_of_le (List.length_filter_le _ _)

/-- The KnowledgeStore: named collections over one embedding space. -/
abbrev Store := List (String × Collection)

/-- Look a collection up by name (missing collections are empty). -/
def getColl (store : Store) (cname : String) : Collection :=
  match store.find? (fun pr => pr.1 == cname) with
  | some pr => pr.2
  | none => []

/-- Modelled from the spec:
`retrieve(question, age, collections, k)` — embed the question once,
search each requested collection with the age filter and a
per-collection `k`, merge, re-rank the merged list by score descending
(ties by the deterministic tie-break), deduplicate by normalized text
keeping the highest-scoring instance, truncate to the overall cap. -/
def retrieve (store : Store) (question : String) (age : Nat)
    (collections : List String) (kPer kTotal : Nat) : List RetrievalResult :=
  let qv := embedVec question
  let merged := (collections.map
    (fun cname => search cname (getColl store cname) qv kPer (ageOk age))).flatten
  let ranked := merged.insertionSort rankLE
  (dedupByText ranked).take kTotal

/-- Running totals per provider: request count, tokens, cost. -/
structure Stats where
  requests : Nat
  tokens : Nat
  cost : ℚ
deriving DecidableEq

/-- Modelled from the spec: `record(provider, tokens, cost)` as an
atomic increment of the provider's running totals (the linearization
point of a concurrent `record` call). -/
def record (s : String → Stats) (p : String) (t : Nat) (c : ℚ) :
    String → Stats :=
  fun pr =>
    if pr = p then
      ⟨(s pr).requests + 1, (s pr).tokens + t, (s pr).cost + c⟩
    else s pr

/-- Modelled from the spec: `snapshot()` reads the accumulated totals. -/
def snapshot (s : String → Stats) : String → Stats := s

/-- One concurrent `record(provider, tokens, cost)` call. -/
structure RecordOp where
  provider : String
  tokens : Nat
  cost : ℚ
deriving DecidableEq

/-- A linearization of concurrent `record` calls, applied in order. -/
def applyOps (init : String → Stats) (ops : List RecordOp) :
    String → Stats :=
  ops.foldl (fun s op => record s op.provider op.tokens op.cost) init

/-- The exact sum of the contributions to one provider among a list of
`record` calls. -/
def contributions (p : String) (ops : List RecordOp) : Stats :=
  ⟨(ops.filter (fun op => op.provider == p)).length,
   ((ops.filter (fun op => op.provider == p)).map RecordOp.tokens).sum,
   ((ops.filter (fun op => op.provider == p)).map RecordOp.cost).sum⟩

/-- A chat message role (`'user' | 'assistant'`). -/
inductive Role where
  | user
  | assistant
deriving DecidableEq

/-- A chat message as kept in the widget's `messages` state. -/
structure Message where
  role : Role
  content : String
deriving DecidableEq

/-- The widget state touched by `sendMessage`: the `messages` list, the
`input` text and the `isLoading` flag. -/
structure WidgetState where
  messages : List Message
  input : String
  isLoading : Bool
deriving DecidableEq

/-- The body posted to `/ask`: `{question, student_age,
use_knowledge_base: true}`. -/
structure AskRequest where
  question : String
  student_age : Nat
  use_knowledge_base : Bool
deriving DecidableEq

/-- Outcome of the awaited `axios.post` call. -/
inductive AskOutcome where
  | ok (answer : String)
  | err (error : String)
deriving DecidableEq

/-- TS `!input.trim()`: the input trims to the empty string under
JavaScript's `String.prototype.trim`, i.e. every character of the input
is whitespace. -/
def trimsToEmpty (s : String) : Bool :=
  s.data.all (fun ch => ch.isWhitespace)

/-- The fixed assistant reply appended in the `catch` branch of
`sendMessage` when the `/ask` request fails. -/
def errorReplyText : String :=
  "Apologies, young scholar. I seem to have lost my train of thought. Please try again."

/-- Embedded from `AristotleWidget.tsx`, the `sendMessage` handler: guard
`if (!input.trim() || isLoading) return;`, then append the user
message, clear the input, set `isLoading`, post to `/ask`, append the
assistant reply (the response's answer, or the fixed error reply on
failure), and reset `isLoading` in the `finally` block.  Returns the
new state and the request issued, if any. -/
def sendMessage (s : WidgetState) (studentAge : Nat) (outcome : AskOutcome) :
    WidgetState × Option AskRequest :=
  if trimsToEmpty s.input = true ∨ s.isLoading = true then (s, none)
  else
    let userMessage : Message := ⟨Role.user, s.input⟩
    let req : AskRequest := ⟨s.input, studentAge, true⟩
    match outcome with
    | .ok ans =>
        (⟨s.messages ++ [userMessage, ⟨Role.assistant, ans⟩], "", false⟩,
         some req)
    | .err _ =>
        (⟨s.messages ++ [userMessage, ⟨Role.assistant, errorReplyText⟩], "",
          false⟩, some req)

/-! ## Theorems -/

theorem dot_nil_left (b : List ℚ) : dot [] b = 0 := rfl

theorem dot_nil_right (a : List ℚ) : dot a [] = 0 := by
  cases a <;> rfl

theorem dot_cons (x y : ℚ) (a b : List ℚ) :
    dot (x :: a) (y :: b) = x * y + dot a b := by
  simp [dot]

/-- Every embedding vector is a unit vector: its inner product with
itself is exactly `1`. -/
theorem dot_embedVec_self (t : String) : dot (embedVec t) (embedVec t) = 1 := by
  have hq : ((hashText t : ℚ) ^ 2 + 1) ≠ 0 := by positivity
  simp only [embedVec, dot, List.zipWith, List.sum_cons, List.sum_nil]
  field_simp
  ring

/-- Rewriting `dot` as a `Finset.range` sum of padded coordinates, for any bound
covering both lengths. -/
theorem dot_eq_sum_range (a b : List ℚ) (n : ℕ)
    (ha : a.length ≤ n) (hb : b.length ≤ n) :
    dot a b = ∑ i ∈ Finset.range n, a.getD i 0 * b.getD i 0 := by
  induction a generalizing b n with
  | nil =>
      simp [dot]
  | cons x xs ih =>
      cases b with
      | nil =>
          simp [dot_nil_right]
      | cons y ys =>
          cases n with
          | zero => simp at ha
          | succ m =>
              rw [dot_cons, Finset.sum_range_succ']
              simp only [List.getD_cons_succ, List.getD_cons_zero]
              rw [ih ys m (Nat.succ_le_succ_iff.mp ha) (Nat.succ_le_succ_iff.mp hb)]
              ring

/-- Cauchy–Schwarz for list inner products, squared form. -/
theorem dot_sq_le (a b : List ℚ) :
    dot a b ^ 2 ≤ dot a a * dot b b := by
  set n := max a.length b.length with hn
  have ha : a.length ≤ n := le_max_left _ _
  have hb : b.length ≤ n := le_max_right _ _
  rw [dot_eq_sum_range a b n ha hb, dot_eq_sum_range a a n ha ha,
    dot_eq_sum_range b b n hb hb]
  have h := Finset.sum_mul_sq_le_sq_mul_sq (Finset.range n)
    (fun i => a.getD i 0) (fun i => b.getD i 0)
  calc (∑ i ∈ Finset.range n, a.getD i 0 * b.getD i 0) ^ 2
      ≤ (∑ i ∈ Finset.range n, a.getD i 0 ^ 2) *
        ∑ i ∈ Finset.range n, b.getD i 0 ^ 2 := h
    _ = (∑ i ∈ Finset.range n, a.getD i 0 * a.getD i 0) *
        ∑ i ∈ Finset.range n, b.getD i 0 * b.getD i 0 := by
          simp [sq]

/-- For unit vectors the inner product is at most `1`: no stored
document can score strictly above a document's score against its own
embedding. -/
theorem dot_le_one (a b : List ℚ) (ha : dot a a = 1) (hb : dot b b = 1) :
    dot a b ≤ 1 := by
  have h := dot_sq_le a b
  rw [ha, hb, mul_one] at h
  have habs : |dot a b| ≤ 1 := (sq_le_one_iff_abs_le_one _).mp h
  calc dot a b ≤ |dot a b| := le_abs_self _
    _ ≤ 1 := habs

/-- C1: inserting a document and searching the collection with the
document's own text as the query returns that document as the top
result, or a tied-top result (equal score `1`, namely the document's own
score against its own embedding) that was inserted strictly earlier. -/
theorem search_roundtrip (cname : String) (col : Collection) (d : Document)
    (i : Nat) (sd : StoredDoc) (k : Nat)
    (hwf : ∀ x ∈ col, x.emb = embedVec x.doc.text)
    (hi : col[i]? = some sd) (hsd : sd.doc = d) (hk : 1 ≤ k) :
    ∃ r rest, search cname col (embedVec d.text) k (fun _ => true) = r :: rest ∧
      r.score = dot (embedVec d.text) (embedVec d.text) ∧ r.score = 1 ∧
      (r.doc = d ∨ r.idx < i) := by
  classical
  set q := embedVec d.text with hqdef
  have hq : dot q q = 1 := dot_embedVec_self d.text
  set f : Nat × StoredDoc → RetrievalResult :=
    fun p => RetrievalResult.mk p.2.doc (dot q p.2.emb) p.1 cname with hfdef
  have hs : search cname col q k (fun _ => true) =
      ((col.enum.map f).insertionSort rankLE).take k := by
    simp only [search, List.filter_true, hfdef]
  have hienum : (i, sd) ∈ col.enum := List.mk_mem_enum_iff_getElem?.mpr hi
  have hrd_mem : f (i, sd) ∈ (col.enum.map f).insertionSort rankLE := by
    rw [List.mem_insertionSort]
    exact List.mem_map_of_mem f hienum
  have hsdc : sd ∈ col := List.getElem?_mem hi
  have hrd_score : (f (i, sd)).score = 1 := by
    have : sd.emb = embedVec sd.doc.text := hwf sd hsdc
    simp only [hfdef, this, hsd, ← hqdef, hq]
  cases hsrt : (col.enum.map f).insertionSort rankLE with
  | nil => rw [hsrt] at hrd_mem; exact absurd hrd_mem (List.not_mem_nil _)
  | cons r rest =>
      obtain ⟨m, rfl⟩ : ∃ m, k = m + 1 := ⟨k - 1, (Nat.succ_pred_eq_of_pos hk).symm⟩
      have hr_mem : r ∈ col.enum.map f := by
        have hmem : r ∈ (col.enum.map f).insertionSort rankLE := by
          rw [hsrt]; exact List.mem_cons_self r rest
        rw [List.mem_insertionSort] at hmem
        exact hmem
      obtain ⟨⟨j, sd2⟩, hj, hfr⟩ := List.mem_map.mp hr_mem
      have hsd2c : sd2 ∈ col := List.getElem?_mem (List.mk_mem_enum_iff_getElem?.mp hj)
      have hr_le : r.score ≤ 1 := by
        rw [← hfr]
        show dot q sd2.emb ≤ 1
        rw [hwf sd2 hsd2c]
        exact dot_le_one q _ hq (dot_embedVec_self _)
      rw [hsrt] at hrd_mem
      have hmain : r.score = 1 ∧ (r.doc = d ∨ r.idx < i) := by
        rcases List.mem_cons.mp hrd_mem with heq | hmem_rest
        · have hdoc : r.doc = d := by rw [← heq]; simpa [hfdef] using hsd
          have hsc : r.score = 1 := by rw [← heq]; exact hrd_score
          exact ⟨hsc, Or.inl hdoc⟩
        · have hsorted := List.sorted_insertionSort rankLE (col.enum.map f)
          rw [hsrt] at hsorted
          have hrel : rankLE r (f (i, sd)) :=
            List.rel_of_sorted_cons hsorted _ hmem_rest
          rcases hrel with hlt | ⟨hscore, hidx⟩
          · rw [hrd_score] at hlt
            exact absurd hr_le (not_le.mpr hlt)
          · have hsc : r.score = 1 := by rw [hscore]; exact hrd_score
            have hidx2 : r.idx ≤ i := hidx
            rcases lt_or_eq_of_le hidx2 with hlt | heqi
            · exact ⟨hsc, Or.inr hlt⟩
            · have hjr : r.idx = j := by rw [← hfr]
              have hji : j = i := by rw [← hjr, heqi]
              have : sd2 = sd := by
                have h1 := List.mk_mem_enum_iff_getElem?.mp hj
                rw [hji, hi] at h1
                exact (Option.some_inj.mp h1).symm
              have hdoc : r.doc = d := by
                rw [← hfr]
                show sd2.doc = d
                rw [this, hsd]
              exact ⟨hsc, Or.inl hdoc⟩
      refine ⟨r, rest.take m, ?_, ?_, hmain.1, hmain.2⟩
      · rw [hs, hsrt, List.take_succ_cons]
      · rw [hmain.1, hq]

/-- C1 witness: a concrete two-document collection; searching with the
second document's text returns a top result of score `1`. -/
theorem search_roundtrip_witness :
    ∃ r rest,
      search "experiments"
        [⟨⟨"e1", "baking soda volcano", ⟨"chem", 6, 14, 9⟩⟩,
          embedVec "baking soda volcano"⟩,
         ⟨⟨"e2", "slime", ⟨"chem", 6, 14, 8⟩⟩, embedVec "slime"⟩]
        (embedVec "slime") 3 (fun _ => true) = r :: rest ∧
      r.score = dot (embedVec "slime") (embedVec "slime") ∧ r.score = 1 ∧
      (r.doc = ⟨"e2", "slime", ⟨"chem", 6, 14, 8⟩⟩ ∨ r.idx < 1) :=
  search_roundtrip "experiments"
    [⟨⟨"e1", "baking soda volcano", ⟨"chem", 6, 14, 9⟩⟩,
      embedVec "baking soda volcano"⟩,
     ⟨⟨"e2", "slime", ⟨"chem", 6, 14, 8⟩⟩, embedVec "slime"⟩]
    ⟨"e2", "slime", ⟨"chem", 6, 14, 8⟩⟩ 1
    ⟨⟨"e2", "slime", ⟨"chem", 6, 14, 8⟩⟩, embedVec "slime"⟩ 3
    (by
      intro x hx
      simp only [List.mem_cons, List.not_mem_nil, or_false] at hx
      rcases hx with rfl | rfl <;> rfl) rfl rfl (by decide)

/-- Filtering the enumerated list on a property of the element keeps as
many entries as filtering the plain list. -/
theorem length_filter_enumFrom {α : Type} (g : α → Bool) (l : List α) (n : Nat) :
    ((l.enumFrom n).filter (fun p => g p.2)).length = (l.filter g).length := by
  induction l generalizing n with
  | nil => rfl
  | cons x xs ih =>
      simp only [List.enumFrom, List.filter_cons]
      cases hgx : g x <;> simp [ih]

/-- C2: the metadata filter is applied to all candidates before
truncation to `k`: every returned result satisfies the filter, the
result count is exactly `min k (number of eligible documents)` (so
whenever at least `k` eligible documents exist, exactly `k` results are
returned), every eligible document is returned when the eligible pool
fits in `k`, and the age filter excludes `age_min = 12` at requested
age `8` while including it at age `13`. -/
theorem search_filter_before_truncation (cname : String) (col : Collection)
    (q : List ℚ) (k : Nat) (fil : Metadata → Bool) :
    (∀ r ∈ search cname col q k fil, fil r.doc.meta = true) ∧
    (search cname col q k fil).length =
      min k (col.filter (fun sd => fil sd.doc.meta)).length ∧
    ((col.filter (fun sd => fil sd.doc.meta)).length ≤ k →
      ∀ sd ∈ col, fil sd.doc.meta = true →
        ∃ r ∈ search cname col q k fil, r.doc = sd.doc) ∧
    ageOk 8 ⟨"chem", 12, 14, 5⟩ = false ∧ ageOk 13 ⟨"chem", 12, 14, 5⟩ = true := by
  classical
  set f : Nat × StoredDoc → RetrievalResult :=
    fun p => RetrievalResult.mk p.2.doc (dot q p.2.emb) p.1 cname with hfdef
  set cands := col.enum.filter (fun p => fil p.2.doc.meta) with hcands
  have hs : search cname col q k fil =
      ((cands.map f).insertionSort rankLE).take k := rfl
  have hlen : ((cands.map f).insertionSort rankLE).length = cands.length := by
    rw [(List.perm_insertionSort rankLE (cands.map f)).length_eq, List.length_map]
  have hclen : cands.length = (col.filter (fun sd => fil sd.doc.meta)).length := by
    rw [hcands]
    exact length_filter_enumFrom (fun sd => fil sd.doc.meta) col 0
  refine ⟨?_, ?_, ?_, rfl, rfl⟩
  · intro r hr
    rw [hs] at hr
    have hr2 : r ∈ (cands.map f).insertionSort rankLE := List.mem_of_mem_take hr
    rw [List.mem_insertionSort] at hr2
    obtain ⟨p, hp, hfp⟩ := List.mem_map.mp hr2
    have := (List.mem_filter.mp hp).2
    rw [← hfp]
    exact this
  · rw [hs, List.length_take, hlen, hclen]
  · intro hle sd hsd hfil
    obtain ⟨i, hi⟩ := List.mem_iff_getElem?.mp hsd
    have hienum : (i, sd) ∈ col.enum := List.mk_mem_enum_iff_getElem?.mpr hi
    have hic : (i, sd) ∈ cands := by
      rw [hcands]
      exact List.mem_filter.mpr ⟨hienum, hfil⟩
    have hmemsort : f (i, sd) ∈ (cands.map f).insertionSort rankLE := by
      rw [List.mem_insertionSort]
      exact List.mem_map_of_mem f hic
    have htake : ((cands.map f).insertionSort rankLE).take k =
        (cands.map f).insertionSort rankLE := by
      apply List.take_of_length_le
      rw [hlen, hclen]
      exact hle
    refine ⟨f (i, sd), ?_, rfl⟩
    rw [hs, htake]
    exact hmemsort

/-- C2 witness: one eligible document for age 13 (age range 12–14) is
returned; the same document is ineligible at age 8. -/
theorem search_filter_witness :
    (∃ r ∈ search "experiments"
        [⟨⟨"e3", "rockets", ⟨"phys", 12, 14, 7⟩⟩, embedVec "rockets"⟩]
        (embedVec "why do rockets fly") 5 (ageOk 13),
        r.doc = ⟨"e3", "rockets", ⟨"phys", 12, 14, 7⟩⟩) ∧
    ageOk 8 ⟨"chem", 12, 14, 5⟩ = false ∧ ageOk 13 ⟨"chem", 12, 14, 5⟩ = true := by
  obtain ⟨h1, h2, h3, h4, h5⟩ := search_filter_before_truncation "experiments"
    [⟨⟨"e3", "rockets", ⟨"phys", 12, 14, 7⟩⟩, embedVec "rockets"⟩]
    (embedVec "why do rockets fly") 5 (ageOk 13)
  refine ⟨h3 ?_ ⟨⟨"e3", "rockets", ⟨"phys", 12, 14, 7⟩⟩, embedVec "rockets"⟩ ?_ ?_,
    h4, h5⟩
  · simp [ageOk]
  · exact List.mem_cons_self _ _
  · rfl

/-- The selected excerpts are a sublist of the offered ones: complete
excerpts only, in the original ranked order. -/
theorem pickExcerpts_sublist (budget : Nat) (es : List String) :
    (pickExcerpts budget es).Sublist es := by
  induction es generalizing budget with
  | nil => simp [pickExcerpts]
  | cons e es ih =>
      rw [pickExcerpts]
      split
      · exact List.Sublist.cons₂ e (ih _)
      · exact List.Sublist.cons e (ih _)

/-- The total size of the selected excerpts never exceeds the budget. -/
theorem pickExcerpts_le_budget (budget : Nat) (es : List String) :
    ((pickExcerpts budget es).map String.length).sum ≤ budget := by
  induction es generalizing budget with
  | nil => simp [pickExcerpts]
  | cons e es ih =>
      rw [pickExcerpts]
      split
      · rename_i hfits
        simp only [List.map_cons, List.sum_cons]
        have := ih (budget - e.length)
        omega
      · exact ih budget

/-- C3: the assembled context never exceeds the configured character
budget, and its excerpts are a sublist of the ranked results' texts —
every excerpt is a complete excerpt of some ranked result (never
partially truncated), and they appear in the Retriever's ranked
order. -/
theorem assemble_budget (question : String) (results : List RetrievalResult)
    (age : Nat) (budget : Nat) :
    ((assemble question results age budget).excerpts.map String.length).sum ≤
      budget ∧
    (assemble question results age budget).excerpts.Sublist
      (results.map (fun r => r.doc.text)) :=
  ⟨pickExcerpts_le_budget budget _, pickExcerpts_sublist budget _⟩

/-- C4: when the primary provider fails on the initial attempt and on
the single retry, the result carries the secondary provider's output if
the secondary succeeds — whether on its first attempt or, after a first
error, on its single retry; and if every provider fails, `generate`
returns (rather than throws) a result with `success = false` whose
answer is the fixed age-appropriate apology — independent of all
provider error strings, so never raw error text. -/
theorem generate_fallback (p1 p2 : Provider) (question : String)
    (ctx : Context) (age : Nat) (e0 e1 : String)
    (h10 : p1.call (buildPrompt question ctx) 0 = .error e0)
    (h11 : p1.call (buildPrompt question ctx) 1 = .error e1) :
    (∀ a t, p2.call (buildPrompt question ctx) 0 = .ok (a, t) →
      generate [p1, p2] question ctx age =
        ⟨a, t, (t : ℚ) * p2.pricePerToken, p2.name, true⟩) ∧
    (∀ e2 a t, p2.call (buildPrompt question ctx) 0 = .error e2 →
      p2.call (buildPrompt question ctx) 1 = .ok (a, t) →
      generate [p1, p2] question ctx age =
        ⟨a, t, (t : ℚ) * p2.pricePerToken, p2.name, true⟩) ∧
    (∀ e2 e3, p2.call (buildPrompt question ctx) 0 = .error e2 →
      p2.call (buildPrompt question ctx) 1 = .error e3 →
      generate [p1, p2] question ctx age =
        ⟨apology age, 0, 0, "none", false⟩) := by
  refine ⟨?_, ?_, ?_⟩
  · intro a t h20
    simp [generate, tryProvider, h10, h11, h20]
  · intro e2 a t h20 h21
    simp [generate, tryProvider, h10, h11, h20, h21]
  · intro e2 e3 h20 h21
    simp [generate, tryProvider, h10, h11, h20, h21]

/-- C4 witness: a primary that always errors; a secondary that succeeds
on its first attempt (first conjunct), succeeds only on its single retry
(second conjunct), or errors on both attempts too (third conjunct,
fixed apology). -/
theorem generate_fallback_witness :
    generate
      [⟨"deepseek", 14 / 100000000, fun _ _ => .error "timeout"⟩,
       ⟨"backup", 2 / 1000000,
         fun _ n => if n = 0 then .ok ("Light bends in water.", 42)
                    else .error "quota"⟩]
      "why" ⟨ageInstruction 9, ["an excerpt"], "why"⟩ 9 =
      ⟨"Light bends in water.", 42, (42 : ℚ) * (2 / 1000000), "backup", true⟩ ∧
    generate
      [⟨"deepseek", 14 / 100000000, fun _ _ => .error "timeout"⟩,
       ⟨"backup", 2 / 1000000,
         fun _ n => if n = 0 then .error "rate limited"
                    else .ok ("Light bends in water.", 37)⟩]
      "why" ⟨ageInstruction 9, ["an excerpt"], "why"⟩ 9 =
      ⟨"Light bends in water.", 37, (37 : ℚ) * (2 / 1000000), "backup", true⟩ ∧
    generate
      [⟨"deepseek", 14 / 100000000, fun _ _ => .error "timeout"⟩,
       ⟨"backup", 2 / 1000000, fun _ _ => .error "quota"⟩]
      "why" ⟨ageInstruction 9, ["an excerpt"], "why"⟩ 9 =
      ⟨apology 9, 0, 0, "none", false⟩ := by
  refine ⟨?_, ?_, ?_⟩
  · exact (generate_fallback
      ⟨"deepseek", 14 / 100000000, fun _ _ => .error "timeout"⟩
      ⟨"backup", 2 / 1000000,
        fun _ n => if n = 0 then .ok ("Light bends in water.", 42)
                   else .error "quota"⟩
      "why" ⟨ageInstruction 9, ["an excerpt"], "why"⟩ 9
      "timeout" "timeout" rfl rfl).1 "Light bends in water." 42 rfl
  · exact (generate_fallback
      ⟨"deepseek", 14 / 100000000, fun _ _ => .error "timeout"⟩
      ⟨"backup", 2 / 1000000,
        fun _ n => if n = 0 then .error "rate limited"
                   else .ok ("Light bends in water.", 37)⟩
      "why" ⟨ageInstruction 9, ["an excerpt"], "why"⟩ 9
      "timeout" "timeout" rfl rfl).2.1 "rate limited"
      "Light bends in water." 37 rfl rfl
  · exact (generate_fallback
      ⟨"deepseek", 14 / 100000000, fun _ _ => .error "timeout"⟩
      ⟨"backup", 2 / 1000000, fun _ _ => .error "quota"⟩
      "why" ⟨ageInstruction 9, ["an excerpt"], "why"⟩ 9
      "timeout" "timeout" rfl rfl).2.2 "quota" "quota" rfl rfl

/-- C5: on every successful generation, the computed monetary cost is
exactly `tokens_used × price-per-token` of the provider actually used,
read from the provider pricing table. -/
theorem generate_cost (providers : List Provider) (question : String)
    (ctx : Context) (age : Nat)
    (h : (generate providers question ctx age).success = true) :
    ∃ p ∈ providers,
      (generate providers question ctx age).provider = p.name ∧
      (generate providers question ctx age).cost =
        ((generate providers question ctx age).tokens_used : ℚ) *
          p.pricePerToken := by
  induction providers with
  | nil => simp [generate] at h
  | cons p ps ih =>
      cases htry : tryProvider p (buildPrompt question ctx) with
      | none =>
          have hgen : generate (p :: ps) question ctx age =
              generate ps question ctx age := by
            simp [generate, htry]
          rw [hgen] at h ⊢
          obtain ⟨p2, hp2, hname, hcost⟩ := ih h
          exact ⟨p2, List.mem_cons_of_mem _ hp2, hname, hcost⟩
      | some r =>
          obtain ⟨ans, toks⟩ := r
          have hgen : generate (p :: ps) question ctx age =
              ⟨ans, toks, (toks : ℚ) * p.pricePerToken, p.name, true⟩ := by
            simp [generate, htry]
          rw [hgen]
          exact ⟨p, List.mem_cons_self _ _, rfl, rfl⟩

/-- C5 witness: a successful concrete run has
`cost = tokens_used × price-per-token` of the provider used. -/
theorem generate_cost_witness :
    ∃ p ∈ [(⟨"deepseek", 14 / 100000000,
        fun _ _ => .ok ("Sound is a vibration.", 55)⟩ : Provider)],
      (generate
        [⟨"deepseek", 14 / 100000000,
          fun _ _ => .ok ("Sound is a vibration.", 55)⟩]
        "what is sound" ⟨ageInstruction 8, [], "what is sound"⟩ 8).provider =
        p.name ∧
      (generate
        [⟨"deepseek", 14 / 100000000,
          fun _ _ => .ok ("Sound is a vibration.", 55)⟩]
        "what is sound" ⟨ageInstruction 8, [], "what is sound"⟩ 8).cost =
        ((generate
          [⟨"deepseek", 14 / 100000000,
            fun _ _ => .ok ("Sound is a vibration.", 55)⟩]
          "what is sound" ⟨ageInstruction 8, [], "what is sound"⟩
          8).tokens_used : ℚ) * p.pricePerToken :=
  generate_cost
    [⟨"deepseek", 14 / 100000000, fun _ _ => .ok ("Sound is a vibration.", 55)⟩]
    "what is sound" ⟨ageInstruction 8, [], "what is sound"⟩ 8 rfl

/-- C6: for a fixed store (embedding model and index state), two calls
to `retrieve` with identical arguments return identical ordered result
lists — every stage (embed, per-collection search, merge, re-rank,
dedup, truncation) is a deterministic function of its arguments, with no
hidden randomness. -/
theorem retrieve_deterministic (store : Store) (q : String) (age : Nat)
    (collections : List String) (kPer kTotal : Nat)
    (r1 r2 : List RetrievalResult)
    (h1 : r1 = retrieve store q age collections kPer kTotal)
    (h2 : r2 = retrieve store q age collections kPer kTotal) :
    r1 = r2 :=
  h1.trans h2.symm

/-- C6 witness: two runs on a concrete store and query coincide. -/
theorem retrieve_deterministic_witness :
    retrieve
      [("experiments",
        [⟨⟨"e2", "slime", ⟨"chem", 6, 14, 8⟩⟩, embedVec "slime"⟩])]
      "what makes slime stretchy" 8 ["experiments"] 3 5 =
    retrieve
      [("experiments",
        [⟨⟨"e2", "slime", ⟨"chem", 6, 14, 8⟩⟩, embedVec "slime"⟩])]
      "what makes slime stretchy" 8 ["experiments"] 3 5 :=
  retrieve_deterministic
    [("experiments",
      [⟨⟨"e2", "slime", ⟨"chem", 6, 14, 8⟩⟩, embedVec "slime"⟩])]
    "what makes slime stretchy" 8 ["experiments"] 3 5 _ _ rfl rfl

/-- The batching loop refines the per-item mapping, up to the pending
accumulator. -/
theorem embedBatchGo_eq (ts : List String) (acc : List (List ℚ)) :
    embedBatchGo ts acc =
      (embedBatchSpec ts).map (fun vs => acc.reverse ++ vs) := by
  induction ts generalizing acc with
  | nil => simp [embedBatchGo, embedBatchSpec, Except.map]
  | cons t ts ih =>
      cases h : embed t with
      | error e =>
          simp [embedBatchGo, embedBatchSpec, h, Except.map]
      | ok v =>
          rw [show embedBatchGo (t :: ts) acc = embedBatchGo ts (v :: acc) by
            simp [embedBatchGo, h]]
          rw [ih (v :: acc)]
          cases h2 : embedBatchSpec ts with
          | error e => simp [embedBatchSpec, h, h2, Except.map]
          | ok vs => simp [embedBatchSpec, h, h2, Except.map]

/-- C7: `embedBatch(texts)` returns exactly the list obtained by calling
`embed` on each text individually, in the same order — the batch
operation is behaviorally equal to the per-item mapping. -/
theorem embedBatch_eq_spec (ts : List String) :
    embedBatch ts = embedBatchSpec ts := by
  rw [embedBatch, embedBatchGo_eq ts []]
  cases h : embedBatchSpec ts <;> simp [Except.map]

/-- Applying a linearized sequence of `record` calls adds exactly the
sum of their contributions to each provider's totals. -/
theorem applyOps_eq_sum (init : String → Stats) (ops : List RecordOp)
    (p : String) :
    applyOps init ops p =
      ⟨(init p).requests + (contributions p ops).requests,
       (init p).tokens + (contributions p ops).tokens,
       (init p).cost + (contributions p ops).cost⟩ := by
  induction ops generalizing init with
  | nil => simp [applyOps, contributions]
  | cons op ops ih =>
      have hstep : applyOps init (op :: ops) =
          applyOps (record init op.provider op.tokens op.cost) ops := rfl
      rw [hstep, ih]
      by_cases h : p = op.provider
      · have hb : (op.provider == p) = true := by simp [h]
        simp only [record, if_pos h, contributions, List.filter_cons, hb,
          if_true, List.length_cons, List.map_cons, List.sum_cons,
          Stats.mk.injEq]
        refine ⟨by ring, by ring, by ring⟩
      · have hb : (op.provider == p) = false := by
          simp only [beq_eq_false_iff_ne, ne_eq]
          exact fun hh => h hh.symm
        simp only [record, if_neg h, contributions, List.filter_cons, hb]
        simp

/-- C8: for every interleaving (linearization) of concurrent `record`
calls, the totals observed by `snapshot` are the exact sum of all the
calls' contributions — no lost updates, and any two interleavings of the
same calls agree; moreover a `record` operation never decrements the
request, token, or (for the nonnegative costs the generator produces)
cost totals of any provider. -/
theorem costTracker_exact (init : String → Stats) (ops : List RecordOp)
    (p : String) :
    snapshot (applyOps init ops) p =
      ⟨(init p).requests + (contributions p ops).requests,
       (init p).tokens + (contributions p ops).tokens,
       (init p).cost + (contributions p ops).cost⟩ ∧
    (∀ ops2, ops.Perm ops2 →
      snapshot (applyOps init ops2) p = snapshot (applyOps init ops) p) ∧
    (∀ s pr t c pr2, (s pr2).requests ≤ (record s pr t c pr2).requests ∧
      (s pr2).tokens ≤ (record s pr t c pr2).tokens ∧
      (0 ≤ c → (s pr2).cost ≤ (record s pr t c pr2).cost)) := by
  refine ⟨applyOps_eq_sum init ops p, ?_, ?_⟩
  · intro ops2 hperm
    have hfil := hperm.filter (fun op => op.provider == p)
    have hcon : contributions p ops2 = contributions p ops := by
      simp [contributions, hfil.length_eq,
        (hfil.map RecordOp.tokens).sum_eq, (hfil.map RecordOp.cost).sum_eq]
    show applyOps init ops2 p = applyOps init ops p
    rw [applyOps_eq_sum init ops2 p, applyOps_eq_sum init ops p, hcon]
  · intro s pr t c pr2
    by_cases h : pr2 = pr
    · simp only [record, if_pos h]
      exact ⟨Nat.le_add_right _ _, Nat.le_add_right _ _,
        fun hc => by linarith⟩
    · simp [record, h]

/-- C8 witness: three concrete `record` calls from two providers; the
snapshot shows the exact per-provider sums, and a reordered
interleaving of the same calls yields the same snapshot. -/
theorem costTracker_exact_witness :
    snapshot (applyOps (fun _ => ⟨0, 0, 0⟩)
      [⟨"deepseek", 10, 1 / 1000⟩, ⟨"backup", 5, 2 / 1000⟩,
       ⟨"deepseek", 7, 3 / 1000⟩]) "deepseek" = ⟨2, 17, 4 / 1000⟩ ∧
    snapshot (applyOps (fun _ => ⟨0, 0, 0⟩)
      [⟨"backup", 5, 2 / 1000⟩, ⟨"deepseek", 10, 1 / 1000⟩,
       ⟨"deepseek", 7, 3 / 1000⟩]) "deepseek" =
    snapshot (applyOps (fun _ => ⟨0, 0, 0⟩)
      [⟨"deepseek", 10, 1 / 1000⟩, ⟨"backup", 5, 2 / 1000⟩,
       ⟨"deepseek", 7, 3 / 1000⟩]) "deepseek" := by
  have h := costTracker_exact (fun _ => ⟨0, 0, 0⟩)
    [⟨"deepseek", 10, 1 / 1000⟩, ⟨"backup", 5, 2 / 1000⟩,
     ⟨"deepseek", 7, 3 / 1000⟩] "deepseek"
  refine ⟨h.1.trans ?_, h.2.1 _ (List.Perm.swap _ _ _)⟩
  norm_num +decide [contributions, List.filter_cons, Stats.mk.injEq]

/-- C9: when the input trims to the empty string or a request is
already in flight, `sendMessage` issues no HTTP request and leaves the
whole widget state — messages, input and `isLoading` — unchanged. -/
theorem sendMessage_guard (s : WidgetState) (studentAge : Nat)
    (outcome : AskOutcome)
    (h : trimsToEmpty s.input = true ∨ s.isLoading = true) :
    sendMessage s studentAge outcome = (s, none) := by
  simp only [sendMessage, if_pos h]

/-- C9 witness: a whitespace-only input issues nothing; so does a state
that is already loading. -/
theorem sendMessage_guard_witness :
    sendMessage ⟨[], "   ", false⟩ 10 (.ok "hi") = (⟨[], "   ", false⟩, none) ∧
    sendMessage ⟨[], "why is the sky blue", true⟩ 10 (.err "boom") =
      (⟨[], "why is the sky blue", true⟩, none) :=
  ⟨sendMessage_guard ⟨[], "   ", false⟩ 10 (.ok "hi") (Or.inl (by decide)),
   sendMessage_guard ⟨[], "why is the sky blue", true⟩ 10 (.err "boom")
     (Or.inr rfl)⟩

/-- C10: past the guard, `isLoading` is reset to `false` on completion
regardless of whether the `/ask` request succeeds or fails; and on any
failure the appended assistant reply is the fixed text
"Apologies, young scholar. I seem to have lost my train of thought.
Please try again." — independent of the error value, never the raw
error. -/
theorem sendMessage_completion (s : WidgetState) (studentAge : Nat)
    (h1 : ¬ trimsToEmpty s.input = true) (h2 : s.isLoading = false) :
    (∀ outcome, (sendMessage s studentAge outcome).1.isLoading = false) ∧
    (∀ ans, (sendMessage s studentAge (.ok ans)).1.messages =
      s.messages ++ [⟨Role.user, s.input⟩, ⟨Role.assistant, ans⟩]) ∧
    (∀ e, (sendMessage s studentAge (.err e)).1.messages =
      s.messages ++ [⟨Role.user, s.input⟩, ⟨Role.assistant, errorReplyText⟩]) ∧
    errorReplyText =
      "Apologies, young scholar. I seem to have lost my train of thought. Please try again." := by
  have hg : ¬ (trimsToEmpty s.input = true ∨ s.isLoading = true) := by
    simp [h1, h2]
  refine ⟨fun outcome => ?_, fun ans => ?_, fun e => ?_, rfl⟩
  · cases outcome <;> simp [sendMessage, if_neg hg]
  · simp [sendMessage, if_neg hg]
  · simp [sendMessage, if_neg hg]

/-- C10 witness: a concrete failing request resets `isLoading` and
appends the fixed apology reply, for any error value. -/
theorem sendMessage_completion_witness :
    (sendMessage ⟨[], "why is the sky blue", false⟩ 10
      (.err "Network Error")).1.isLoading = false ∧
    (sendMessage ⟨[], "why is the sky blue", false⟩ 10
      (.err "Network Error")).1.messages =
      [⟨Role.user, "why is the sky blue"⟩,
       ⟨Role.assistant, errorReplyText⟩] := by
  have h := sendMessage_completion ⟨[], "why is the sky blue", false⟩ 10
    (by decide) rfl
  exact ⟨h.1 (.err "Network Error"), (h.2.2.1 "Network Error").trans rfl⟩

end AIstotle
